import Mathlib

/-!
Verification of the procedural ambient-music synthesizer
(scripts/generate_music.py).  The Python code is shallowly embedded:
NumPy float arrays become `List ℝ`, machine floats become exact reals,
and the guarded slice assignments of the source become truncating list
operations (adding or multiplying past the end of a buffer is a no-op,
exactly as the source's `end = min(N, start + seg.size)` slicing).

The pseudo-random sources are made explicit:

* `np.random.default_rng()` creates a fresh generator seeded from OS
  entropy on every call; each such generator is modelled as a stream
  `ℕ → ℝ` obtained from an ambient `entropy : ℕ → ℕ → ℝ` source
  (generator index ↦ draw index ↦ drawn value).  These draws do NOT
  depend on the user-supplied seed, exactly as in the source, where
  `np.random.seed(seed)` only seeds NumPy's legacy global generator,
  which none of the synthesis functions read.
* the Python global `random` generator (used by `random.choice` in the
  arpeggio) is deterministic once seeded; it is modelled by an abstract
  seeded stream `pySeeded : ℤ → ℕ → ℕ` selected when a seed is supplied,
  and an ambient stream `ambientPy : ℕ → ℕ` otherwise.
-/

namespace Music

/-! ### Music theory model (lines 43-69) -/

/-- MIDI note number to frequency, equal temperament with A4 = 440 Hz
at note 69 (line 43). -/
noncomputable def midi_to_freq (midi : ℝ) : ℝ :=
  440.0 * (2.0 : ℝ) ^ ((midi - 69.0) / 12.0)

/-- Character-list test for Python str.startswith. -/
def startsBy : List Char → List Char → Bool
  | _, [] => true
  | [], _ :: _ => false
  | c :: cs, p :: ps => c == p && startsBy cs ps

/-- Python str.startswith on ASCII strings. -/
def pyStartsWith (s pat : String) : Bool := startsBy s.data pat.data

/-- Python str.lower on ASCII strings. -/
def pyLower (s : String) : String := String.mk (s.data.map Char.toLower)

/-- Python str.upper on ASCII strings. -/
def pyUpper (s : String) : String := String.mk (s.data.map Char.toUpper)

/-- The fixed enharmonic pitch table of build_scale (lines 50-51). -/
def KEYS : List (String × Int) :=
  [("C", 60), ("C#", 61), ("DB", 61), ("D", 62), ("D#", 63), ("EB", 63), ("E", 64),
   ("F", 65), ("F#", 66), ("GB", 66), ("G", 67), ("G#", 68), ("AB", 68), ("A", 69),
   ("A#", 70), ("BB", 70), ("B", 71)]

/-- build_scale (lines 47-60).  The `SystemExit` raised on an unknown key is
modelled by the `Except.error` branch. -/
def build_scale (key mode : String) : Except String (List Int) :=
  let k := pyUpper key
  match KEYS.lookup k with
  | none => Except.error ("Unknown key: " ++ k)
  | some root =>
      let steps : List Int :=
        if pyStartsWith (pyLower mode) "maj" then [0, 2, 4, 5, 7, 9, 11]
        else [0, 2, 3, 5, 7, 8, 10]
      Except.ok (steps.map (fun s => root + s))

/-- chord_from_degree (lines 63-69); Python `%` on a positive modulus agrees
with `Int.emod`. -/
def chord_from_degree (scale : List Int) (deg : Int) (mode : String) : List Int :=
  let i := ((deg - 1) % 7).toNat
  let a := scale.getD i 0
  let b := scale.getD ((i + 2) % 7) 0
  let c := scale.getD ((i + 4) % 7) 0
  if pyStartsWith (pyLower mode) "min" ∧ deg = 5 then [a, b + 1, c] else [a, b, c]

/-- The plain stacked-third triad at scale indices (i, i+2 mod 7, i+4 mod 7)
with i = (deg − 1) mod 7, i.e. lines 65-66 of the source without the minor-V
special case; the spec calls this the unmodified stacked third. -/
def stackedTriad (scale : List Int) (deg : Int) : List Int :=
  let i := ((deg - 1) % 7).toNat
  [scale.getD i 0, scale.getD ((i + 2) % 7) 0, scale.getD ((i + 4) % 7) 0]

/-- The chord progression derived once per render (lines 272-273). -/
def progChords (scale : List Int) (mode : String) : List (List Int) :=
  (if pyStartsWith (pyLower mode) "min" then ([1, 6, 7, 4] : List Int) else [1, 5, 6, 4]).map
    (fun d => chord_from_degree scale d mode)

/-! ### Signal primitives (lines 74-130) -/

noncomputable section

/-- Target mix peak, about −1 dBFS (line 35). -/
def MIX_HEADROOM : ℝ := 0.9

/-- np.zeros(n): a buffer of n zero samples. -/
def zeros (n : ℕ) : List ℝ := List.replicate n 0

/-- Scalar times buffer (numpy broadcasting of a scalar multiply). -/
def scl (c : ℝ) (xs : List ℝ) : List ℝ := xs.map (fun v => c * v)

/-- Pointwise sum of two buffers. -/
def addB (xs ys : List ℝ) : List ℝ := List.zipWith (· + ·) xs ys

/-- Pointwise product of two buffers. -/
def mulB (xs ys : List ℝ) : List ℝ := List.zipWith (· * ·) xs ys

/-- np.arange(0, stop, step) in exact arithmetic. -/
def arange0 (stop step : ℝ) : List ℝ :=
  (List.range ⌈stop / step⌉₊).map (fun (k : ℕ) => (k : ℝ) * step)

/-- np.linspace(a, b, n). -/
def linspace (a b : ℝ) (n : ℕ) : List ℝ :=
  (List.range n).map (fun (i : ℕ) => if n ≤ 1 then a else a + (b - a) * (i : ℝ) / ((n : ℝ) - 1))

/-- buf[start : start + seg.length] += seg, truncated at the end of buf:
models the source's guarded slice adds with end = min(N, start + seg.size). -/
def addInto (buf : List ℝ) (start : ℕ) (seg : List ℝ) : List ℝ :=
  buf.mapIdx (fun i v => if start ≤ i then v + seg.getD (i - start) 0 else v)

/-- buf[start : start + w.length] *= w, truncated at the end of buf. -/
def mulInto (buf : List ℝ) (start : ℕ) (w : List ℝ) : List ℝ :=
  buf.mapIdx (fun i v => if start ≤ i then v * w.getD (i - start) 1 else v)

/-- The sequential one-pole scan acc += a·(v − acc); y[i] = acc
(lines 81-84). -/
def lpScan (a : ℝ) : ℝ → List ℝ → List ℝ
  | _, [] => []
  | acc, v :: rest =>
      let acc2 := acc + a * (v - acc)
      acc2 :: lpScan a acc2 rest

/-- one_pole_lowpass (lines 74-85).  A non-positive cutoff returns the input
unchanged before any coefficient is computed (explicit bypass). -/
def one_pole_lowpass (x : List ℝ) (cutoff_hz : ℝ) (sr : ℕ) : List ℝ :=
  if cutoff_hz ≤ 0 then x
  else
    let dt : ℝ := 1 / (sr : ℝ)
    let rc : ℝ := 1 / (2 * Real.pi * cutoff_hz)
    lpScan (dt / (rc + dt)) 0 x

/-- fade_io (lines 88-96): the first fi samples are multiplied by a linear
0→1 ramp and the last fo samples by a 1→0 ramp; a zero count skips that
side. -/
def fade_io (x : List ℝ) (fade_in fade_out : ℝ) (sr : ℕ) : List ℝ :=
  let fi := ⌊max 0 fade_in * (sr : ℝ)⌋₊
  let fo := ⌊max 0 fade_out * (sr : ℝ)⌋₊
  let x1 := if 0 < fi then mulInto x 0 (linspace 0 1 fi) else x
  if 0 < fo then mulInto x1 (x1.length - fo) (linspace 1 0 fo) else x1

/-- Peak magnitude of a buffer: np.max(np.abs(...)), 0 on an empty buffer. -/
def absMax (xs : List ℝ) : ℝ := xs.foldr (fun v r => max |v| r) 0

/-- The gain computed by normalize_stereo (lines 100-101): the measured peak
is floored at 1e-9 and the gain capped at unity. -/
def normGain (L R : List ℝ) (peak : ℝ) : ℝ :=
  min 1 (peak / max (1 / 1000000000) (absMax (L ++ R)))

/-- normalize_stereo (lines 99-102): both channels scaled by the same gain. -/
def normalize_stereo (L R : List ℝ) (peak : ℝ) : List ℝ × List ℝ :=
  (scl (normGain L R peak) L, scl (normGain L R peak) R)

/-- tilt_brightness (lines 124-130): adds amount × (x − lowpass(x, 1200 Hz)). -/
def tilt_brightness (x : List ℝ) (amount : ℝ) (sr : ℕ) : List ℝ :=
  let amt := max 0 (min 1 amount)
  if amt ≤ 1 / 1000000 then x
  else addB x (scl amt (List.zipWith (· - ·) x (one_pole_lowpass x 1200 sr)))

/-! ### Voice synthesizers (lines 135-259) -/

/-- Cent detunes of the pad partials (line 147). -/
def detunes : List ℝ := [0, -3/10, 3/10]

/-- One output sample of a pad chord segment at time tv: the sum over the
chord pitches × 3 detuned partials of 0.28·sin(2π·fm·(tv + vib·1e-3)), the
vibrato rate of each partial jittered by one uniform draw (rng.random(),
entropy index c0 + 3·j + k) — lines 145-152, transposed one octave down. -/
def padSegSample (ch : List Int) (ent : ℕ → ℝ) (c0 : ℕ) (tv : ℝ) : ℝ :=
  ((List.range ch.length).map (fun j =>
    ((List.range 3).map (fun k =>
      let f := midi_to_freq ((ch.getD j 0 : ℝ) - 12)
      let fm := f * (2 : ℝ) ^ (detunes.getD k 0 / 1200)
      let vib := 0.2 + 0.1 * Real.sin (2 * Real.pi * (0.08 + 0.02 * ent (c0 + 3 * j + k)) * tv)
      0.28 * Real.sin (2 * Real.pi * fm * (tv + vib * 0.001)))).sum)).sum

/-- The linear crossfade window of a pad segment (lines 157-162): ones with
the first xf samples ramped 0→1 and the last xf samples ramped 1→0. -/
def padWindow (n xf : ℕ) : List ℝ :=
  mulInto (mulInto (List.replicate n (1 : ℝ)) 0 (linspace 0 1 xf)) (n - xf) (linspace 1 0 xf)

/-- synth_pad (lines 135-172).  The fold state is (left, right, number of
rng.random() draws consumed so far).  The source's early break once
start ≥ N is behaviorally equal to the truncating addInto: such segments
add nothing to either buffer. -/
def synth_pad (duration : ℝ) (chords : List (List Int)) (sr : ℕ)
    (chord_dur xfade bright : ℝ) (ent : ℕ → ℝ) : List ℝ × List ℝ :=
  let N := ⌊duration * (sr : ℝ)⌋₊
  let t := arange0 (chord_dur + xfade) (1 / (sr : ℝ))
  let res := (List.range ⌈duration / chord_dur⌉₊).foldl
    (fun (s : List ℝ × List ℝ × ℕ) (idx : ℕ) =>
      let ch := chords.getD (idx % chords.length) []
      let seg0 := t.map (padSegSample ch ent s.2.2)
      let seg1 := tilt_brightness (one_pole_lowpass seg0 2200 sr) bright sr
      let seg2 :=
        if 0 < xfade then mulB seg1 (padWindow seg1.length ⌊xfade * (sr : ℝ)⌋₊) else seg1
      let start := ⌊(idx : ℝ) * chord_dur * (sr : ℝ)⌋₊
      (addInto s.1 start (scl (1 - 0.12) seg2),
       addInto s.2.1 start (scl (1 + 0.12) seg2),
       s.2.2 + 3 * ch.length))
    (zeros N, zeros N, 0)
  (res.1, res.2.1)

/-- synth_ocean (lines 175-184): filtered Gaussian noise with a dual-sinusoid
amplitude undulation; the noise draws come from a fresh default_rng stream. -/
def synth_ocean (duration : ℝ) (sr : ℕ) (ent : ℕ → ℝ) : List ℝ × List ℝ :=
  let N := ⌊duration * (sr : ℝ)⌋₊
  let white := (List.range N).map ent
  let ocean := one_pole_lowpass white 400 sr
  let amp := (List.range N).map (fun (i : ℕ) =>
    0.18 * (0.6 + 0.4 * Real.sin (2 * Real.pi * 0.08 * ((i : ℝ) / (sr : ℝ)))
      + 0.3 * Real.sin (2 * Real.pi * 0.093 * ((i : ℝ) / (sr : ℝ)) + 1.3)))
  (mulB ocean (scl 0.9 amp), mulB ocean (scl 1.1 amp))

/-- synth_arp (lines 187-212).  choice k abstracts the k-th random.choice
draw as an index into the current chord; the pan LFO is sampled at the
absolute sample position of each pluck sample. -/
def synth_arp (duration : ℝ) (chords : List (List Int)) (bpm : ℝ) (sr : ℕ)
    (choice : ℕ → ℕ) : List ℝ × List ℝ :=
  let N := ⌊duration * (sr : ℝ)⌋₊
  let step := 60 / bpm / 2
  let t_step := arange0 0.6 (1 / (sr : ℝ))
  (List.range ⌈duration / step⌉₊).foldl
    (fun (s : List ℝ × List ℝ) (k : ℕ) =>
      let ch := chords.getD (k % chords.length) []
      let note := ch.getD (choice k % ch.length) 0
      let f := midi_to_freq ((note : ℝ) + 12)
      let start := ⌊(k : ℝ) * step * (sr : ℝ)⌋₊
      let pl := t_step.map (fun tv =>
        0.12 * Real.sin (2 * Real.pi * f * tv) * Real.exp (-tv / 0.25))
      let pan := fun (i : ℕ) => Real.sin (2 * Real.pi * 0.02 * (((start + i : ℕ) : ℝ) / (sr : ℝ)))
      (addInto s.1 start (pl.mapIdx (fun i v => v * (0.6 - 0.4 * pan i))),
       addInto s.2 start (pl.mapIdx (fun i v => v * (0.6 + 0.4 * pan i)))))
    (zeros N, zeros N)

/-- synth_percussion (lines 215-259): near-zero level returns silence
before any synthesis; otherwise a kick on each beat and a high-passed
noise hat on each off-beat, scaled by level at the end. -/
def synth_percussion (duration bpm : ℝ) (sr : ℕ) (level : ℝ) (ent : ℕ → ℝ) :
    List ℝ × List ℝ :=
  let N := ⌊duration * (sr : ℝ)⌋₊
  if level ≤ 1 / 1000000 then (zeros N, zeros N)
  else
    let beat := 60 / bpm
    let t_k := arange0 0.25 (1 / (sr : ℝ))
    let kick := t_k.map (fun tv => 0.4 * Real.sin (2 * Real.pi * 50 * tv) * Real.exp (-tv / 0.09))
    let t_h := arange0 0.08 (1 / (sr : ℝ))
    let hat0 := (List.range t_h.length).map ent
    let hat1 := List.zipWith (· - ·) hat0 (one_pole_lowpass hat0 8000 sr)
    let hat := List.zipWith (fun h tv => h * (Real.exp (-tv / 0.03) * 0.15)) hat1 t_h
    let res := (List.range ⌈duration / beat⌉₊).foldl
      (fun (s : List ℝ × List ℝ) (k : ℕ) =>
        let ks := ⌊(k : ℝ) * beat * (sr : ℝ)⌋₊
        let hs := ⌊((k : ℝ) * beat + beat / 2) * (sr : ℝ)⌋₊
        (addInto (addInto s.1 ks kick) hs (scl 0.9 hat),
         addInto (addInto s.2 ks kick) hs (scl 1.1 hat)))
      (zeros N, zeros N)
    (scl level res.1, scl level res.2)

/-! ### Render pipeline (lines 264-287) -/

/-- Selection of the Python global-random stream: random.seed(seed) makes it
a deterministic function of the seed (lines 268-269); with no seed the
ambient, unseeded stream is used. -/
def pyStreamOf (seed : Option Int) (pySeeded : Int → ℕ → ℕ) (ambientPy : ℕ → ℕ) : ℕ → ℕ :=
  match seed with
  | some s => pySeeded s
  | none => ambientPy

/-- Lines 275-287 of generate_track: render the four voices from the chord
progression, mix at the caller levels, fade, and normalize. -/
def render_mix (chords : List (List Int)) (duration bpm fade : ℝ) (sr : ℕ)
    (pad_level ocean_level arp_level percussion_level : ℝ) (no_arp : Bool) (bright : ℝ)
    (pyStream : ℕ → ℕ) (entropy : ℕ → ℕ → ℝ) : List ℝ × List ℝ :=
  let P := synth_pad duration chords sr 4 0.5 bright (entropy 0)
  let O := synth_ocean duration sr (entropy 1)
  let A := if no_arp then (zeros P.1.length, zeros P.2.length)
           else synth_arp duration chords bpm sr pyStream
  let C := synth_percussion duration bpm sr percussion_level (entropy 2)
  let L := addB (addB (addB (scl pad_level P.1) (scl ocean_level O.1)) (scl arp_level A.1)) C.1
  let R := addB (addB (addB (scl pad_level P.2) (scl ocean_level O.2)) (scl arp_level A.2)) C.2
  normalize_stereo (fade_io L fade fade sr) (fade_io R fade fade sr) MIX_HEADROOM

/-- Lines 271-287 of generate_track, after the key has been resolved. -/
def render_track (scale : List Int) (duration bpm : ℝ) (mode : String) (fade : ℝ) (sr : ℕ)
    (pad_level ocean_level arp_level percussion_level : ℝ) (no_arp : Bool) (bright : ℝ)
    (pyStream : ℕ → ℕ) (entropy : ℕ → ℕ → ℝ) : List ℝ × List ℝ :=
  render_mix (progChords scale mode) duration bpm fade sr pad_level ocean_level arp_level
    percussion_level no_arp bright pyStream entropy

/-- generate_track (lines 264-287).  np.random.seed(seed) (line 270) seeds
NumPy's legacy global generator, which none of the synthesis functions
read — they each call np.random.default_rng(), a fresh OS-entropy-seeded
generator modelled by the seed-independent `entropy` streams.  Only the
arpeggio's random.choice consumes the stream seeded by random.seed(seed). -/
def generate_track (duration bpm : ℝ) (key mode : String) (fade : ℝ) (seed : Option Int)
    (sr : ℕ) (pad_level ocean_level arp_level percussion_level : ℝ) (no_arp : Bool)
    (bright : ℝ) (pySeeded : Int → ℕ → ℕ) (ambientPy : ℕ → ℕ) (entropy : ℕ → ℕ → ℝ) :
    Except String (List ℝ × List ℝ) :=
  (build_scale key mode).map (fun scale =>
    render_track scale duration bpm mode fade sr pad_level ocean_level arp_level
      percussion_level no_arp bright (pyStreamOf seed pySeeded ambientPy) entropy)

/-- First-sample smoothing coefficient of the 400 Hz ocean low-pass at
sample rate 2: dt/(rc + dt) with dt = 1/2 and rc = 1/(2π·400).  Used when
evaluating a one-sample render in the determinism analysis. -/
def oceanA2 : ℝ := (1 / 2) / (1 / (2 * Real.pi * 400) + 1 / 2)

/-- First-sample ocean amplitude: 0.18·(0.6 + 0.4·sin 0 + 0.3·sin 1.3). -/
def oceanAmp0 : ℝ := 0.18 * (0.6 + 0.3 * Real.sin 1.3)

end

/-! ### Length infrastructure -/

theorem length_zeros (n : ℕ) : (zeros n).length = n := List.length_replicate n 0

theorem length_scl (c : ℝ) (xs : List ℝ) : (scl c xs).length = xs.length :=
  List.length_map xs _

theorem length_addB (xs ys : List ℝ) : (addB xs ys).length = min xs.length ys.length :=
  List.length_zipWith _ xs ys

theorem length_mulB (xs ys : List ℝ) : (mulB xs ys).length = min xs.length ys.length :=
  List.length_zipWith _ xs ys

theorem length_linspace (a b : ℝ) (n : ℕ) : (linspace a b n).length = n := by
  unfold linspace
  rw [List.length_map, List.length_range]

theorem length_addInto (buf : List ℝ) (s : ℕ) (seg : List ℝ) :
    (addInto buf s seg).length = buf.length := by
  simp [addInto, List.length_mapIdx]

theorem length_mulInto (buf : List ℝ) (s : ℕ) (w : List ℝ) :
    (mulInto buf s w).length = buf.length := by
  simp [mulInto, List.length_mapIdx]

theorem length_lpScan (a : ℝ) : ∀ (acc : ℝ) (x : List ℝ), (lpScan a acc x).length = x.length
  | _, [] => rfl
  | acc, v :: rest => by
      simp [lpScan, length_lpScan a _ rest]

theorem length_one_pole_lowpass (x : List ℝ) (c : ℝ) (sr : ℕ) :
    (one_pole_lowpass x c sr).length = x.length := by
  unfold one_pole_lowpass
  split
  · rfl
  · exact length_lpScan _ _ _

theorem length_tilt_brightness (x : List ℝ) (amount : ℝ) (sr : ℕ) :
    (tilt_brightness x amount sr).length = x.length := by
  simp only [tilt_brightness]
  split
  · rfl
  · simp only [length_addB, length_scl, List.length_zipWith, length_one_pole_lowpass,
      Nat.min_self]

theorem length_fade_io (x : List ℝ) (a b : ℝ) (sr : ℕ) :
    (fade_io x a b sr).length = x.length := by
  simp only [fade_io]
  split <;> split <;> simp only [length_mulInto]

theorem length_normalize_stereo (L R : List ℝ) (p : ℝ) :
    (normalize_stereo L R p).1.length = L.length ∧
    (normalize_stereo L R p).2.length = R.length := by
  constructor <;> simp [normalize_stereo, length_scl]

theorem foldl_pres {σ α : Type*} (P : σ → Prop) (f : σ → α → σ)
    (hf : ∀ s a, P s → P (f s a)) :
    ∀ (l : List α) (s : σ), P s → P (l.foldl f s) := by
  intro l
  induction l with
  | nil => intro s hs; exact hs
  | cons a t ih => intro s hs; exact ih _ (hf _ _ hs)

theorem synth_pad_length (d : ℝ) (chords : List (List Int)) (sr : ℕ) (cd xf br : ℝ)
    (e : ℕ → ℝ) :
    (synth_pad d chords sr cd xf br e).1.length = ⌊d * (sr : ℝ)⌋₊ ∧
    (synth_pad d chords sr cd xf br e).2.length = ⌊d * (sr : ℝ)⌋₊ := by
  unfold synth_pad
  exact foldl_pres
    (fun (s : List ℝ × List ℝ × ℕ) =>
      s.1.length = ⌊d * (sr : ℝ)⌋₊ ∧ s.2.1.length = ⌊d * (sr : ℝ)⌋₊)
    _
    (fun s a hs => ⟨by simpa [length_addInto] using hs.1, by simpa [length_addInto] using hs.2⟩)
    _ _ ⟨length_zeros _, length_zeros _⟩

theorem synth_ocean_length (d : ℝ) (sr : ℕ) (e : ℕ → ℝ) :
    (synth_ocean d sr e).1.length = ⌊d * (sr : ℝ)⌋₊ ∧
    (synth_ocean d sr e).2.length = ⌊d * (sr : ℝ)⌋₊ := by
  constructor <;>
    simp only [synth_ocean, length_mulB, length_scl, length_one_pole_lowpass,
      List.length_map, List.length_range, Nat.min_self]

theorem synth_arp_length (d : ℝ) (chords : List (List Int)) (bpm : ℝ) (sr : ℕ)
    (choice : ℕ → ℕ) :
    (synth_arp d chords bpm sr choice).1.length = ⌊d * (sr : ℝ)⌋₊ ∧
    (synth_arp d chords bpm sr choice).2.length = ⌊d * (sr : ℝ)⌋₊ := by
  unfold synth_arp
  exact foldl_pres
    (fun (s : List ℝ × List ℝ) =>
      s.1.length = ⌊d * (sr : ℝ)⌋₊ ∧ s.2.length = ⌊d * (sr : ℝ)⌋₊)
    _
    (fun s a hs => ⟨by simpa [length_addInto] using hs.1, by simpa [length_addInto] using hs.2⟩)
    _ _ ⟨length_zeros _, length_zeros _⟩

theorem synth_percussion_length (d bpm : ℝ) (sr : ℕ) (lv : ℝ) (e : ℕ → ℝ) :
    (synth_percussion d bpm sr lv e).1.length = ⌊d * (sr : ℝ)⌋₊ ∧
    (synth_percussion d bpm sr lv e).2.length = ⌊d * (sr : ℝ)⌋₊ := by
  simp only [synth_percussion]
  split
  · exact ⟨length_zeros _, length_zeros _⟩
  · refine ⟨?_, ?_⟩ <;>
    · dsimp only
      rw [length_scl]
      first
        | exact (foldl_pres
            (fun (s : List ℝ × List ℝ) =>
              s.1.length = ⌊d * (sr : ℝ)⌋₊ ∧ s.2.length = ⌊d * (sr : ℝ)⌋₊) _
            (fun s a hs =>
              ⟨by simp only [length_addInto]; exact hs.1,
               by simp only [length_addInto]; exact hs.2⟩)
            _ _ ⟨length_zeros _, length_zeros _⟩).1
        | exact (foldl_pres
            (fun (s : List ℝ × List ℝ) =>
              s.1.length = ⌊d * (sr : ℝ)⌋₊ ∧ s.2.length = ⌊d * (sr : ℝ)⌋₊) _
            (fun s a hs =>
              ⟨by simp only [length_addInto]; exact hs.1,
               by simp only [length_addInto]; exact hs.2⟩)
            _ _ ⟨length_zeros _, length_zeros _⟩).2

theorem render_mix_length (chords : List (List Int)) (d bpm fade : ℝ) (sr : ℕ)
    (pl ol al lvl : ℝ) (na : Bool) (br : ℝ) (ps : ℕ → ℕ) (ent : ℕ → ℕ → ℝ) :
    (render_mix chords d bpm fade sr pl ol al lvl na br ps ent).1.length = ⌊d * (sr : ℝ)⌋₊ ∧
    (render_mix chords d bpm fade sr pl ol al lvl na br ps ent).2.length = ⌊d * (sr : ℝ)⌋₊ := by
  obtain ⟨hp1, hp2⟩ := synth_pad_length d chords sr 4 0.5 br (ent 0)
  obtain ⟨ho1, ho2⟩ := synth_ocean_length d sr (ent 1)
  obtain ⟨hc1, hc2⟩ := synth_percussion_length d bpm sr lvl (ent 2)
  obtain ⟨ha1, ha2⟩ := synth_arp_length d chords bpm sr ps
  simp only [render_mix, normalize_stereo]
  constructor <;>
  · dsimp only
    cases na <;>
      simp only [Bool.false_eq_true, if_false, if_true, length_scl, length_fade_io,
        length_addB, length_zeros, hp1, hp2, ho1, ho2, hc1, hc2, ha1, ha2, Nat.min_self]

/-! ### Algebraic helper lemmas -/

theorem scl_zeros (c : ℝ) (n : ℕ) : scl c (zeros n) = zeros n := by
  simp [scl, zeros, List.map_replicate]

theorem addB_zeros_right : ∀ (xs : List ℝ), addB xs (zeros xs.length) = xs
  | [] => rfl
  | v :: t => by
      simp only [List.length_cons, zeros, List.replicate_succ]
      show (v + 0) :: List.zipWith (· + ·) t (List.replicate t.length 0) = v :: t
      rw [add_zero]
      exact congrArg (List.cons v) (addB_zeros_right t)

theorem synth_percussion_silent (d bpm : ℝ) (sr : ℕ) (lv : ℝ) (e : ℕ → ℝ)
    (h : lv ≤ 1 / 1000000) :
    synth_percussion d bpm sr lv e = (zeros ⌊d * (sr : ℝ)⌋₊, zeros ⌊d * (sr : ℝ)⌋₊) := by
  simp only [synth_percussion]
  rw [if_pos h]

theorem fade_io_zero (x : List ℝ) (sr : ℕ) : fade_io x 0 0 sr = x := by
  simp [fade_io]

theorem generate_ok {key mode : String} {scale : List Int}
    (h : build_scale key mode = Except.ok scale)
    (duration bpm fade : ℝ) (seed : Option Int) (sr : ℕ) (pl ol al lvl : ℝ)
    (na : Bool) (br : ℝ) (pys : Int → ℕ → ℕ) (amb : ℕ → ℕ) (ent : ℕ → ℕ → ℝ) :
    generate_track duration bpm key mode fade seed sr pl ol al lvl na br pys amb ent
      = Except.ok (render_track scale duration bpm mode fade sr pl ol al lvl na br
          (pyStreamOf seed pys amb) ent) := by
  simp only [generate_track, h, Except.map]

theorem absMax_nonneg (xs : List ℝ) : 0 ≤ absMax xs := by
  induction xs with
  | nil => simp [absMax]
  | cons v t ih =>
      simp only [absMax, List.foldr_cons]
      exact le_trans ih (le_max_right _ _)

theorem abs_le_absMax (xs : List ℝ) : ∀ v ∈ xs, |v| ≤ absMax xs := by
  induction xs with
  | nil => intro v hv; cases hv
  | cons w t ih =>
      intro v hv
      rcases List.mem_cons.mp hv with h | h
      · subst h
        exact le_max_left _ _
      · exact le_trans (ih v h) (le_max_right _ _)

theorem absMax_scl (g : ℝ) (xs : List ℝ) : absMax (scl g xs) = |g| * absMax xs := by
  induction xs with
  | nil => simp [absMax, scl]
  | cons v t ih =>
      simp only [scl, List.map_cons, absMax, List.foldr_cons] at ih ⊢
      rw [abs_mul, ih, mul_max_of_nonneg _ _ (abs_nonneg g)]

theorem normGain_pos (L R : List ℝ) (p : ℝ) (hp : 0 < p) : 0 < normGain L R p := by
  have hm : (0 : ℝ) < max (1 / 1000000000) (absMax (L ++ R)) :=
    lt_of_lt_of_le (by norm_num) (le_max_left _ _)
  exact lt_min one_pos (div_pos hp hm)

theorem normGain_le_one (L R : List ℝ) (p : ℝ) : normGain L R p ≤ 1 := min_le_left _ _

theorem lpScan_getD_succ (a : ℝ) :
    ∀ (x : List ℝ) (acc : ℝ) (i : ℕ), i + 1 < x.length →
      (lpScan a acc x).getD (i + 1) 0
        = (lpScan a acc x).getD i 0
          + a * (x.getD (i + 1) 0 - (lpScan a acc x).getD i 0) := by
  intro x
  induction x with
  | nil => intro acc i h; simp at h
  | cons v rest ih =>
      intro acc i h
      cases i with
      | zero =>
          have hr : 0 < rest.length := by simpa using h
          obtain ⟨w, t, hw⟩ : ∃ w t, rest = w :: t := by
            cases rest with
            | nil => simp at hr
            | cons w t => exact ⟨w, t, rfl⟩
          subst hw
          simp [lpScan]
      | succ j =>
          have h2 : j + 1 < rest.length := by simpa using h
          simpa [lpScan] using ih (acc + a * (v - acc)) j h2

theorem one_pole_lowpass_pos (x : List ℝ) (c : ℝ) (sr : ℕ) (hc : 0 < c) :
    one_pole_lowpass x c sr
      = lpScan ((1 / (sr : ℝ)) / (1 / (2 * Real.pi * c) + 1 / (sr : ℝ))) 0 x := by
  simp only [one_pole_lowpass]
  rw [if_neg (not_le.mpr hc)]

theorem natFloor_round_close (x : ℝ) (hx : 0 ≤ x) :
    |((⌊x⌋₊ : ℕ) : ℤ) - round x| ≤ 1 := by
  have h1 : ((⌊x⌋₊ : ℕ) : ℤ) = ⌊x⌋ := by
    rw [← Int.floor_toNat, Int.toNat_of_nonneg (Int.floor_nonneg.mpr hx)]
  have h2 : ⌊x⌋ ≤ round x := by
    rw [round_eq]
    exact Int.floor_le_floor (by linarith)
  have h3 : round x ≤ ⌊x⌋ + 1 := by
    rw [round_eq]
    have h4 : ⌊x + 1 / 2⌋ ≤ ⌊x + 1⌋ := Int.floor_le_floor (by linarith)
    simpa [Int.floor_add_one] using h4
  rw [h1, abs_le]
  omega

theorem floor_half_two : ⌊(0.5 : ℝ) * ((2 : ℕ) : ℝ)⌋₊ = 1 := by
  have h : (0.5 : ℝ) * ((2 : ℕ) : ℝ) = 1 := by push_cast; norm_num
  rw [h, Nat.floor_one]

/-! ### Claim theorems -/

/-- C5: chord_from_degree builds the triad from scale indices
(i, i+2 mod 7, i+4 mod 7) with i = (deg − 1) mod 7; when the mode is minor
and the degree is 5 the middle pitch is exactly one semitone above the
unmodified stacked third, and no other degree/mode combination is
special-cased.  Concretely, in A natural minor the degree-5 chord is
[76, 80, 71] where the stacked third gives [76, 79, 71]. -/
theorem c5_chord_from_degree_spec :
    (∀ (scale : List Int) (deg : Int) (mode : String),
        chord_from_degree scale deg mode =
          if pyStartsWith (pyLower mode) "min" ∧ deg = 5 then
            [(stackedTriad scale deg).getD 0 0,
             (stackedTriad scale deg).getD 1 0 + 1,
             (stackedTriad scale deg).getD 2 0]
          else stackedTriad scale deg)
    ∧ chord_from_degree [69, 71, 72, 74, 76, 77, 79] 5 "minor" = [76, 80, 71]
    ∧ stackedTriad [69, 71, 72, 74, 76, 77, 79] 5 = [76, 79, 71] := by
  refine ⟨?_, by decide, by decide⟩
  intro scale deg mode
  by_cases h : pyStartsWith (pyLower mode) "min" ∧ deg = 5
  · rw [if_pos h]
    simp [chord_from_degree, stackedTriad, h]
  · rw [if_neg h]
    simp [chord_from_degree, stackedTriad, h]

/-- C10: in minor mode the third is raised only when the degree argument is
literally 5; any degree d ≠ 5, even one congruent to 5 mod 7 such as d = 12
(which indexes the same scale positions, since (12−1) mod 7 = (5−1) mod 7),
yields the plain stacked triad without the one-semitone raise. -/
theorem c10_raise_only_at_literal_five :
    (∀ (scale : List Int) (mode : String) (deg : Int),
        pyStartsWith (pyLower mode) "min" = true → deg ≠ 5 →
        chord_from_degree scale deg mode = stackedTriad scale deg)
    ∧ chord_from_degree [69, 71, 72, 74, 76, 77, 79] 12 "minor" = [76, 79, 71]
    ∧ ((12 : Int) - 1) % 7 = ((5 : Int) - 1) % 7 := by
  refine ⟨?_, by decide, by decide⟩
  intro scale mode deg _h hne
  have hcond : ¬(pyStartsWith (pyLower mode) "min" ∧ deg = 5) := fun hc => hne hc.2
  simp [chord_from_degree, stackedTriad, hcond]

/-- C10 witness: at degree 12 in A minor the chord is the plain stacked
triad. -/
theorem c10_witness :
    chord_from_degree [69, 71, 72, 74, 76, 77, 79] 12 "minor"
      = stackedTriad [69, 71, 72, 74, 76, 77, 79] 12 :=
  c10_raise_only_at_literal_five.1 _ _ _ rfl (by decide)

/-- C7: build_scale "C" "major" yields the pitches at semitone offsets
{0,2,4,5,7,9,11} above MIDI 60; build_scale "C#" and build_scale "Db"
agree for every mode string; and every scale it accepts has exactly 7
pitches. -/
theorem c7_build_scale_spec :
    build_scale "C" "major" = Except.ok [60, 62, 64, 65, 67, 69, 71]
    ∧ (∀ mode : String, build_scale "C#" mode = build_scale "Db" mode)
    ∧ (∀ (key mode : String) (s : List Int),
        build_scale key mode = Except.ok s → s.length = 7) := by
  refine ⟨rfl, fun mode => rfl, ?_⟩
  intro key mode s h
  simp only [build_scale] at h
  cases hk : KEYS.lookup (pyUpper key) with
  | none => rw [hk] at h; cases h
  | some root =>
      rw [hk] at h
      by_cases hm : pyStartsWith (pyLower mode) "maj" <;>
        simp [hm] at h <;> simp [← h]

/-- C7 witness: the A natural-minor scale is accepted and has 7 pitches. -/
theorem c7_witness :
    build_scale "A" "minor" = Except.ok [69, 71, 72, 74, 76, 77, 79]
    ∧ ([69, 71, 72, 74, 76, 77, 79] : List Int).length = 7 :=
  ⟨rfl, c7_build_scale_spec.2.2 "A" "minor" _ rfl⟩

/-- C8: for every cutoff ≤ 0 (including exactly 0) one_pole_lowpass returns
the input unchanged — an identity bypass, not an error; for cutoff > 0 it
performs the sequential scan acc += α·(x[i] − acc); y[i] = acc with
α = Δt/(RC + Δt), Δt = 1/sr and RC = 1/(2π·cutoff): the output has the
input's length, its first sample is α·x[0], and each later sample obeys
y[i+1] = y[i] + α·(x[i+1] − y[i]). -/
theorem c8_lowpass_spec :
    ∀ (x : List ℝ) (c : ℝ) (sr : ℕ),
      (c ≤ 0 → one_pole_lowpass x c sr = x) ∧
      (0 < c →
        (one_pole_lowpass x c sr).length = x.length ∧
        (0 < x.length →
          (one_pole_lowpass x c sr).getD 0 0
            = ((1 / (sr : ℝ)) / (1 / (2 * Real.pi * c) + 1 / (sr : ℝ))) * x.getD 0 0) ∧
        (∀ i : ℕ, i + 1 < x.length →
          (one_pole_lowpass x c sr).getD (i + 1) 0
            = (one_pole_lowpass x c sr).getD i 0
              + ((1 / (sr : ℝ)) / (1 / (2 * Real.pi * c) + 1 / (sr : ℝ)))
                * (x.getD (i + 1) 0 - (one_pole_lowpass x c sr).getD i 0))) := by
  intro x c sr
  constructor
  · intro hc
    simp only [one_pole_lowpass]
    rw [if_pos hc]
  · intro hc
    rw [one_pole_lowpass_pos x c sr hc]
    refine ⟨length_lpScan _ _ _, ?_, ?_⟩
    · intro hx
      obtain ⟨v, rest, hv⟩ : ∃ v rest, x = v :: rest := by
        cases x with
        | nil => simp at hx
        | cons v rest => exact ⟨v, rest, rfl⟩
      subst hv
      simp [lpScan]
    · intro i hi
      exact lpScan_getD_succ _ x 0 i hi

/-- C8 witness: cutoff 0 leaves a concrete signal untouched, and at a
positive cutoff the scan output keeps the input's length. -/
theorem c8_witness :
    one_pole_lowpass [(1 : ℝ), 2] 0 2 = [(1 : ℝ), 2]
    ∧ (0 : ℝ) < 100
    ∧ (one_pole_lowpass [(1 : ℝ)] 100 2).length = [(1 : ℝ)].length :=
  ⟨(c8_lowpass_spec [(1 : ℝ), 2] 0 2).1 le_rfl, by norm_num,
   ((c8_lowpass_spec [(1 : ℝ)] 100 2).2 (by norm_num)).1⟩

/-- C3: normalize_stereo scales both channels by the single gain
min(1, targetPeak/peak) with the measured peak floored at 1e-9 (so silence
never divides by zero); the gain is strictly positive and never exceeds
unity (attenuation only, balance preserved exactly), and the post-
normalization peak of both channels is at most targetPeak. -/
theorem c3_normalize_stereo_spec :
    ∀ (L R : List ℝ) (tp : ℝ), L.length = R.length → 0 < tp → tp ≤ 1 →
      (normalize_stereo L R tp).1 = scl (normGain L R tp) L
      ∧ (normalize_stereo L R tp).2 = scl (normGain L R tp) R
      ∧ 0 < normGain L R tp
      ∧ normGain L R tp ≤ 1
      ∧ absMax ((normalize_stereo L R tp).1 ++ (normalize_stereo L R tp).2) ≤ tp := by
  intro L R tp _hlen htp _htp1
  have hg0 : 0 < normGain L R tp := normGain_pos L R tp htp
  refine ⟨rfl, rfl, hg0, normGain_le_one L R tp, ?_⟩
  have hm : (0 : ℝ) < max (1 / 1000000000) (absMax (L ++ R)) :=
    lt_of_lt_of_le (by norm_num) (le_max_left _ _)
  have h1 : absMax ((normalize_stereo L R tp).1 ++ (normalize_stereo L R tp).2)
      = normGain L R tp * absMax (L ++ R) := by
    have h2 : (normalize_stereo L R tp).1 ++ (normalize_stereo L R tp).2
        = scl (normGain L R tp) (L ++ R) := by
      simp [normalize_stereo, scl, List.map_append]
    rw [h2, absMax_scl, abs_of_pos hg0]
  rw [h1]
  have h3 : normGain L R tp * absMax (L ++ R)
      ≤ normGain L R tp * max (1 / 1000000000) (absMax (L ++ R)) :=
    mul_le_mul_of_nonneg_left (le_max_right _ _) (le_of_lt hg0)
  refine le_trans h3 ?_
  have h4 : normGain L R tp ≤ tp / max (1 / 1000000000) (absMax (L ++ R)) :=
    min_le_right _ _
  calc normGain L R tp * max (1 / 1000000000) (absMax (L ++ R))
      ≤ tp / max (1 / 1000000000) (absMax (L ++ R))
          * max (1 / 1000000000) (absMax (L ++ R)) :=
        mul_le_mul_of_nonneg_right h4 (le_of_lt hm)
    _ = tp := div_mul_cancel₀ tp (ne_of_gt hm)

/-- C3 witness: a concrete stereo pair is attenuated by a single in-range
gain and its peak stays below the target. -/
theorem c3_witness :
    (normalize_stereo [(1 : ℝ) / 2] [-(1 : ℝ) / 4] (9 / 10)).1
      = scl (normGain [(1 : ℝ) / 2] [-(1 : ℝ) / 4] (9 / 10)) [(1 : ℝ) / 2]
    ∧ (normalize_stereo [(1 : ℝ) / 2] [-(1 : ℝ) / 4] (9 / 10)).2
      = scl (normGain [(1 : ℝ) / 2] [-(1 : ℝ) / 4] (9 / 10)) [-(1 : ℝ) / 4]
    ∧ 0 < normGain [(1 : ℝ) / 2] [-(1 : ℝ) / 4] (9 / 10)
    ∧ normGain [(1 : ℝ) / 2] [-(1 : ℝ) / 4] (9 / 10) ≤ 1
    ∧ absMax ((normalize_stereo [(1 : ℝ) / 2] [-(1 : ℝ) / 4] (9 / 10)).1
        ++ (normalize_stereo [(1 : ℝ) / 2] [-(1 : ℝ) / 4] (9 / 10)).2) ≤ 9 / 10 :=
  c3_normalize_stereo_spec [(1 : ℝ) / 2] [-(1 : ℝ) / 4] (9 / 10) rfl
    (by norm_num) (by norm_num)

/-- C6: a key name that does not resolve in the fixed enharmonic table after
case-insensitive lookup makes build_scale fail with the unknown-key error,
and generate_track surfaces that same error immediately — it returns the
error and produces no output buffer; every key in the table is accepted
without error. -/
theorem c6_unknown_key_fatal :
    ∀ (key mode : String) (duration bpm fade : ℝ) (seed : Option Int) (sr : ℕ)
      (pl ol al lvl : ℝ) (na : Bool) (br : ℝ) (pys : Int → ℕ → ℕ) (amb : ℕ → ℕ)
      (ent : ℕ → ℕ → ℝ),
      (KEYS.lookup (pyUpper key) = none →
        build_scale key mode = Except.error ("Unknown key: " ++ pyUpper key)
        ∧ generate_track duration bpm key mode fade seed sr pl ol al lvl na br pys amb ent
            = Except.error ("Unknown key: " ++ pyUpper key))
      ∧ (∀ root : Int, KEYS.lookup (pyUpper key) = some root →
          build_scale key mode
            = Except.ok ((if pyStartsWith (pyLower mode) "maj" then
                  ([0, 2, 4, 5, 7, 9, 11] : List Int)
                else [0, 2, 3, 5, 7, 8, 10]).map (fun s => root + s))) := by
  intro key mode duration bpm fade seed sr pl ol al lvl na br pys amb ent
  constructor
  · intro h
    have hb : build_scale key mode = Except.error ("Unknown key: " ++ pyUpper key) := by
      simp only [build_scale, h]
    exact ⟨hb, by simp only [generate_track, hb, Except.map]⟩
  · intro root h
    simp only [build_scale, h]

/-- C6 witness: the key "H" is rejected with the unknown-key error by
build_scale and by generate_track (which produces no buffer), while the
table key "A" is accepted. -/
theorem c6_witness :
    build_scale "H" "minor" = Except.error ("Unknown key: " ++ pyUpper "H")
    ∧ generate_track 1 84 "H" "minor" 0 none 2 1 1 1 0 false 0 (fun _ _ => 0) (fun _ => 0)
        (fun _ _ => 0) = Except.error ("Unknown key: " ++ pyUpper "H")
    ∧ build_scale "A" "minor"
        = Except.ok ((if pyStartsWith (pyLower "minor") "maj" then
              ([0, 2, 4, 5, 7, 9, 11] : List Int)
            else [0, 2, 3, 5, 7, 8, 10]).map (fun s => (69 : Int) + s)) := by
  obtain h := c6_unknown_key_fatal "H" "minor" 1 84 0 none 2 1 1 1 0 false 0
    (fun _ _ => 0) (fun _ => 0) (fun _ _ => 0)
  obtain h2 := c6_unknown_key_fatal "A" "minor" 1 84 0 none 2 1 1 1 0 false 0
    (fun _ _ => 0) (fun _ => 0) (fun _ _ => 0)
  exact ⟨(h.1 rfl).1, (h.1 rfl).2, h2.2 69 rfl⟩

/-- C2 counterexample: with the unrecognized mode string "dorian" and a fade
of 0.3 s on a 0.5 s render (fade > duration/2), generate_track does not
reject the parameters before synthesis — it proceeds and returns a rendered
output buffer. -/
theorem c2_counterexample :
    generate_track 0.5 84 "A" "dorian" 0.3 (some 42) 2 1 1 0.35 0 false 0.4
        (fun _ _ => 0) (fun _ => 0) (fun _ _ => 0)
      = Except.ok (render_track [69, 71, 72, 74, 76, 77, 79] 0.5 84 "dorian" 0.3 2 1 1 0.35 0
          false 0.4 (pyStreamOf (some 42) (fun _ _ => 0) (fun _ => 0)) (fun _ _ => 0)) :=
  @generate_ok "A" "dorian" [69, 71, 72, 74, 76, 77, 79] rfl 0.5 84 0.3 (some 42) 2 1 1 0.35 0
    false 0.4 (fun _ _ => 0) (fun _ => 0) (fun _ _ => 0)

/-- C2 amended: generate_track performs no parameter-domain rejection before
synthesis.  On the domain where synthesis runs to completion — a key that
resolves, positive tempo, sample rate at least 2, at least one output
sample, and fade ramps no longer than the buffer — the render proceeds and
returns a buffer for every mode string (unrecognized modes are not
rejected: they fall back to the natural-minor scale) and for every fade in
that domain, including fades longer than half the duration, which the spec
declares invalid.  Parameters outside that domain (zero or negative tempo
or sample rate, fade ramps exceeding the buffer) are not rejected up front
either: in the source they fail later, inside synthesis, with numeric
errors — this theorem deliberately does not cover them. -/
theorem c2_amended_no_validation :
    ∀ (duration bpm : ℝ) (key mode : String) (fade : ℝ) (seed : Option Int) (sr : ℕ)
      (pl ol al lvl : ℝ) (na : Bool) (br : ℝ) (pys : Int → ℕ → ℕ) (amb : ℕ → ℕ)
      (ent : ℕ → ℕ → ℝ) (scale : List Int),
      0 < bpm → 2 ≤ sr → 1 ≤ ⌊duration * (sr : ℝ)⌋₊ →
      ⌊max 0 fade * (sr : ℝ)⌋₊ ≤ ⌊duration * (sr : ℝ)⌋₊ →
      build_scale key mode = Except.ok scale →
      generate_track duration bpm key mode fade seed sr pl ol al lvl na br pys amb ent
        = Except.ok (render_track scale duration bpm mode fade sr pl ol al lvl na br
            (pyStreamOf seed pys amb) ent) := by
  intro duration bpm key mode fade seed sr pl ol al lvl na br pys amb ent scale
    _hbpm _hsr _hn _hfade h
  exact generate_ok h duration bpm fade seed sr pl ol al lvl na br pys amb ent

/-- C2 amended witness: the unrecognized mode "locrian" together with a
fade of 0.4 s on a 0.5 s render (fade > duration/2) is accepted —
synthesis proceeds and returns a buffer instead of rejecting the
parameters. -/
theorem c2_amended_witness :
    generate_track 0.5 84 "A" "locrian" 0.4 none 2 1 1 0.35 0 false 0.4 (fun _ _ => 0)
        (fun _ => 0) (fun _ _ => 0)
      = Except.ok (render_track [69, 71, 72, 74, 76, 77, 79] 0.5 84 "locrian" 0.4 2 1 1 0.35 0
          false 0.4 (pyStreamOf none (fun _ _ => 0) (fun _ => 0)) (fun _ _ => 0)) :=
  c2_amended_no_validation 0.5 84 "A" "locrian" 0.4 none 2 1 1 0.35 0 false 0.4 (fun _ _ => 0)
    (fun _ => 0) (fun _ _ => 0) [69, 71, 72, 74, 76, 77, 79] (by norm_num) le_rfl
    (le_of_eq floor_half_two.symm)
    (by
      rw [floor_half_two]
      have h1 : max (0 : ℝ) 0.4 * ((2 : ℕ) : ℝ) = 0.8 := by
        rw [max_eq_right (by norm_num : (0 : ℝ) ≤ 0.4)]
        push_cast
        norm_num
      rw [h1]
      have h2 : ⌊(0.8 : ℝ)⌋₊ = 0 := Nat.floor_eq_zero.mpr (by norm_num)
      rw [h2]
      exact Nat.zero_le 1)
    rfl

/-- C9: with the arpeggio disabled its contribution is the all-zero buffer of
full render length before mixing, so the rendered output does not depend on
the configured arp level and the mixing stage collapses to
padLevel·pad + oceanLevel·ocean + percussion; and a percussion level at or
below the near-zero threshold makes the percussion voice return exactly the
all-zero buffers. -/
theorem c9_no_arp_and_silent_percussion :
    ∀ (d bpm : ℝ) (key mode : String) (fade : ℝ) (seed : Option Int) (sr : ℕ)
      (pl ol a a2 lvl br : ℝ) (pys : Int → ℕ → ℕ) (amb : ℕ → ℕ) (ent : ℕ → ℕ → ℝ),
      generate_track d bpm key mode fade seed sr pl ol a lvl true br pys amb ent
        = generate_track d bpm key mode fade seed sr pl ol a2 lvl true br pys amb ent
      ∧ (∀ lv : ℝ, lv ≤ 1 / 1000000 → ∀ e : ℕ → ℝ,
          synth_percussion d bpm sr lv e = (zeros ⌊d * (sr : ℝ)⌋₊, zeros ⌊d * (sr : ℝ)⌋₊))
      ∧ (∀ (al : ℝ) (Lp Lo Lc : List ℝ) (n : ℕ),
          Lp.length = n → Lo.length = n → Lc.length = n →
          addB (addB (addB (scl pl Lp) (scl ol Lo)) (scl al (zeros n))) Lc
            = addB (addB (scl pl Lp) (scl ol Lo)) Lc)
      ∧ (∀ (chords : List (List Int)) (br2 : ℝ) (e : ℕ → ℝ),
          (synth_pad d chords sr 4 0.5 br2 e).1.length = ⌊d * (sr : ℝ)⌋₊) := by
  intro d bpm key mode fade seed sr pl ol a a2 lvl br pys amb ent
  refine ⟨?_, ?_, ?_, ?_⟩
  · have hrend : ∀ scale : List Int,
        render_track scale d bpm mode fade sr pl ol a lvl true br
            (pyStreamOf seed pys amb) ent
          = render_track scale d bpm mode fade sr pl ol a2 lvl true br
              (pyStreamOf seed pys amb) ent := by
      intro scale
      simp [render_track, render_mix, scl_zeros]
    cases hb : build_scale key mode with
    | error e => simp [generate_track, hb, Except.map]
    | ok scale => simp [generate_track, hb, Except.map, hrend scale]
  · intro lv hlv e
    exact synth_percussion_silent d bpm sr lv e hlv
  · intro al Lp Lo Lc n h1 h2 h3
    rw [scl_zeros]
    have hlen : (addB (scl pl Lp) (scl ol Lo)).length = n := by
      rw [length_addB, length_scl, length_scl, h1, h2, Nat.min_self]
    rw [← hlen, addB_zeros_right]
  · intro chords br2 e
    exact (synth_pad_length d chords sr 4 0.5 br2 e).1

/-- C9 witness: at concrete parameters the no-arp render is independent of
the arp level, a zero-level percussion voice is exactly silent, and the mix
identity holds on concrete one-sample buffers. -/
theorem c9_witness :
    generate_track 1 84 "A" "minor" 0 none 2 1 1 0.35 0 true 0.4 (fun _ _ => 0)
        (fun _ => 0) (fun _ _ => 0)
      = generate_track 1 84 "A" "minor" 0 none 2 1 1 2 0 true 0.4 (fun _ _ => 0)
          (fun _ => 0) (fun _ _ => 0)
    ∧ synth_percussion 1 84 2 0 (fun _ => 0)
        = (zeros ⌊(1 : ℝ) * ((2 : ℕ) : ℝ)⌋₊, zeros ⌊(1 : ℝ) * ((2 : ℕ) : ℝ)⌋₊)
    ∧ addB (addB (addB (scl 1 [(5 : ℝ)]) (scl 1 [(7 : ℝ)])) (scl 0.35 (zeros 1))) [(11 : ℝ)]
        = addB (addB (scl 1 [(5 : ℝ)]) (scl 1 [(7 : ℝ)])) [(11 : ℝ)]
    ∧ (synth_pad 1 [] 2 4 0.5 0.4 (fun _ => 0)).1.length = ⌊(1 : ℝ) * ((2 : ℕ) : ℝ)⌋₊ := by
  obtain h := c9_no_arp_and_silent_percussion 1 84 "A" "minor" 0 none 2 1 1 0.35 2 0 0.4
    (fun _ _ => 0) (fun _ => 0) (fun _ _ => 0)
  exact ⟨h.1, h.2.1 0 (by norm_num) _,
    h.2.2.1 0.35 [(5 : ℝ)] [(7 : ℝ)] [(11 : ℝ)] 1 rfl rfl rfl,
    h.2.2.2 [] 0.4 (fun _ => 0)⟩

/-- C4: for every positive duration and sample rate (and a key that
resolves), generate_track returns the rendered buffer; both channels have
the same length, and that length — the source truncates duration·sr via
int() — differs from round(duration·sampleRate) by at most one sample. -/
theorem c4_render_length :
    ∀ (duration bpm : ℝ) (key mode : String) (fade : ℝ) (seed : Option Int) (sr : ℕ)
      (pl ol al lvl : ℝ) (na : Bool) (br : ℝ) (pys : Int → ℕ → ℕ) (amb : ℕ → ℕ)
      (ent : ℕ → ℕ → ℝ) (scale : List Int),
      0 < duration → 0 < sr → build_scale key mode = Except.ok scale →
      generate_track duration bpm key mode fade seed sr pl ol al lvl na br pys amb ent
        = Except.ok (render_track scale duration bpm mode fade sr pl ol al lvl na br
            (pyStreamOf seed pys amb) ent)
      ∧ (render_track scale duration bpm mode fade sr pl ol al lvl na br
            (pyStreamOf seed pys amb) ent).1.length
          = (render_track scale duration bpm mode fade sr pl ol al lvl na br
              (pyStreamOf seed pys amb) ent).2.length
      ∧ |((render_track scale duration bpm mode fade sr pl ol al lvl na br
            (pyStreamOf seed pys amb) ent).1.length : ℤ)
          - round (duration * (sr : ℝ))| ≤ 1 := by
  intro duration bpm key mode fade seed sr pl ol al lvl na br pys amb ent scale hd hsr hb
  obtain ⟨h1, h2⟩ := render_mix_length (progChords scale mode) duration bpm fade sr pl ol al
    lvl na br (pyStreamOf seed pys amb) ent
  refine ⟨generate_ok hb duration bpm fade seed sr pl ol al lvl na br pys amb ent, ?_, ?_⟩
  · simp only [render_track]
    rw [h1, h2]
  · simp only [render_track]
    rw [h1]
    exact natFloor_round_close (duration * (sr : ℝ))
      (mul_nonneg (le_of_lt hd) (Nat.cast_nonneg sr))

/-- C4 witness: at duration 0.5 s and sample rate 2 both channels agree in
length and the length is within one sample of round(duration·sr). -/
theorem c4_witness :
    generate_track 0.5 84 "A" "minor" 0 none 2 1 1 0.35 0 false 0.4 (fun _ _ => 0)
        (fun _ => 0) (fun _ _ => 0)
      = Except.ok (render_track [69, 71, 72, 74, 76, 77, 79] 0.5 84 "minor" 0 2 1 1 0.35 0
          false 0.4 (pyStreamOf none (fun _ _ => 0) (fun _ => 0)) (fun _ _ => 0))
    ∧ (render_track [69, 71, 72, 74, 76, 77, 79] 0.5 84 "minor" 0 2 1 1 0.35 0 false 0.4
          (pyStreamOf none (fun _ _ => 0) (fun _ => 0)) (fun _ _ => 0)).1.length
        = (render_track [69, 71, 72, 74, 76, 77, 79] 0.5 84 "minor" 0 2 1 1 0.35 0 false 0.4
            (pyStreamOf none (fun _ _ => 0) (fun _ => 0)) (fun _ _ => 0)).2.length
    ∧ |((render_track [69, 71, 72, 74, 76, 77, 79] 0.5 84 "minor" 0 2 1 1 0.35 0 false 0.4
          (pyStreamOf none (fun _ _ => 0) (fun _ => 0)) (fun _ _ => 0)).1.length : ℤ)
        - round ((0.5 : ℝ) * ((2 : ℕ) : ℝ))| ≤ 1 :=
  c4_render_length 0.5 84 "A" "minor" 0 none 2 1 1 0.35 0 false 0.4 (fun _ _ => 0)
    (fun _ => 0) (fun _ _ => 0) [69, 71, 72, 74, 76, 77, 79] (by norm_num) (by norm_num) rfl

/-! ### One-sample render evaluation, for the seed-determinism analysis -/

theorem oceanA2_pos : 0 < oceanA2 := by
  unfold oceanA2
  have hp := Real.pi_pos
  have h1 : (0 : ℝ) < 1 / (2 * Real.pi * 400) := by positivity
  have h2 : (0 : ℝ) < 1 / (2 * Real.pi * 400) + 1 / 2 := by linarith
  positivity

theorem oceanAmp0_pos : 0 < oceanAmp0 := by
  unfold oceanAmp0
  have h := Real.neg_one_le_sin 1.3
  nlinarith

theorem normalize_single (v w p : ℝ) (hp : 0 < p) :
    ∃ g : ℝ, 0 < g ∧ (normalize_stereo [v] [w] p).1 = [g * v] :=
  ⟨normGain [v] [w] p, normGain_pos _ _ p hp, rfl⟩

theorem synth_ocean_single (ent : ℕ → ℝ) :
    synth_ocean 0.5 2 ent
      = ([oceanA2 * (0.9 * oceanAmp0) * ent 0], [oceanA2 * (1.1 * oceanAmp0) * ent 0]) := by
  have hr1 : List.range 1 = [0] := rfl
  simp only [synth_ocean, floor_half_two, hr1, List.map_cons, List.map_nil]
  rw [one_pole_lowpass_pos _ _ _ (by norm_num : (0 : ℝ) < 400)]
  simp only [lpScan, mulB, scl, List.map_cons, List.map_nil, List.zipWith_cons_cons,
    List.zipWith_nil_right, Prod.mk.injEq, List.cons.injEq, and_true]
  constructor
  · unfold oceanA2 oceanAmp0
    push_cast
    norm_num [Real.sin_zero]
    ring
  · unfold oceanA2 oceanAmp0
    push_cast
    norm_num [Real.sin_zero]
    ring

theorem c1_render_fst (chords : List (List Int)) (ps : ℕ → ℕ) (ent : ℕ → ℕ → ℝ) :
    ∃ g : ℝ, 0 < g ∧
      (render_mix chords 0.5 84 0 2 0 1 0 0 true 0.4 ps ent).1
        = [g * (oceanA2 * (0.9 * oceanAmp0) * ent 1 0)] := by
  obtain ⟨hp1, hp2⟩ := synth_pad_length 0.5 chords 2 4 0.5 0.4 (ent 0)
  rw [floor_half_two] at hp1 hp2
  obtain ⟨x, hx⟩ := List.length_eq_one.mp hp1
  obtain ⟨y, hy⟩ := List.length_eq_one.mp hp2
  have hperc : synth_percussion 0.5 84 2 0 (ent 2) = (zeros 1, zeros 1) := by
    rw [synth_percussion_silent 0.5 84 2 0 (ent 2) (by norm_num), floor_half_two]
  simp only [render_mix, synth_ocean_single (ent 1), hperc, hx, hy, if_true,
    List.length_singleton, zeros, List.replicate, addB, scl, List.map_cons, List.map_nil,
    List.zipWith_cons_cons, List.zipWith_nil_right, fade_io_zero, zero_mul, one_mul,
    mul_zero, add_zero, zero_add]
  exact normalize_single _ _ MIX_HEADROOM (by norm_num [MIX_HEADROOM])

/-- C1 (refuted): supplying a seed does NOT make generate_track
deterministic.  generate_track seeds random.seed and np.random.seed, but the
pad vibrato, the ocean noise and the percussion hat draw from fresh
np.random.default_rng() generators (OS entropy, modelled by the seed-
independent `entropy` streams); only the arpeggio's random.choice derives
from the seed.  Here two renders with identical parameters and the same
seed 42 — differing only in the OS entropy behind default_rng() — produce
different output buffers: with all-zero Gaussian draws the ocean (the only
audible voice at these levels) is silent, while with all-one draws its
first sample is strictly positive. -/
theorem c1_same_seed_not_bit_identical :
    generate_track 0.5 84 "A" "minor" 0 (some 42) 2 0 1 0 0 true 0.4
        (fun _ _ => 0) (fun _ => 0) (fun _ _ => (0 : ℝ))
      ≠ generate_track 0.5 84 "A" "minor" 0 (some 42) 2 0 1 0 0 true 0.4
          (fun _ _ => 0) (fun _ => 0) (fun _ _ => (1 : ℝ)) := by
  intro h
  rw [@generate_ok "A" "minor" [69, 71, 72, 74, 76, 77, 79] rfl 0.5 84 0 (some 42) 2 0 1 0 0
      true 0.4 (fun _ _ => 0) (fun _ => 0) (fun _ _ => (0 : ℝ)),
    @generate_ok "A" "minor" [69, 71, 72, 74, 76, 77, 79] rfl 0.5 84 0 (some 42) 2 0 1 0 0
      true 0.4 (fun _ _ => 0) (fun _ => 0) (fun _ _ => (1 : ℝ))] at h
  have h1 : (render_mix (progChords [69, 71, 72, 74, 76, 77, 79] "minor") 0.5 84 0 2 0 1 0 0
        true 0.4 (pyStreamOf (some 42) (fun _ _ => 0) (fun _ => 0)) (fun _ _ => (0 : ℝ))).1
      = (render_mix (progChords [69, 71, 72, 74, 76, 77, 79] "minor") 0.5 84 0 2 0 1 0 0
          true 0.4 (pyStreamOf (some 42) (fun _ _ => 0) (fun _ => 0)) (fun _ _ => (1 : ℝ))).1 :=
    congrArg Prod.fst (Except.ok.inj h)
  obtain ⟨g1, hg1, hfst1⟩ := c1_render_fst (progChords [69, 71, 72, 74, 76, 77, 79] "minor")
    (pyStreamOf (some 42) (fun _ _ => 0) (fun _ => 0)) (fun _ _ => (0 : ℝ))
  obtain ⟨g2, hg2, hfst2⟩ := c1_render_fst (progChords [69, 71, 72, 74, 76, 77, 79] "minor")
    (pyStreamOf (some 42) (fun _ _ => 0) (fun _ => 0)) (fun _ _ => (1 : ℝ))
  rw [hfst1, hfst2] at h1
  have h2 : g1 * (oceanA2 * (0.9 * oceanAmp0) * 0)
      = g2 * (oceanA2 * (0.9 * oceanAmp0) * 1) := by
    have h3 := List.head_eq_of_cons_eq h1
    simpa using h3
  have h4 : (0 : ℝ) < g2 * (oceanA2 * (0.9 * oceanAmp0) * 1) := by
    have ha := oceanA2_pos
    have hb := oceanAmp0_pos
    have hc : (0 : ℝ) < 0.9 * oceanAmp0 := by nlinarith
    have hd : (0 : ℝ) < oceanA2 * (0.9 * oceanAmp0) * 1 := by
      rw [mul_one]
      exact mul_pos ha hc
    exact mul_pos hg2 hd
  rw [mul_zero, mul_zero] at h2
  linarith

end Music
